import Mathlib

/-!
Verification of the `link` build-action helper (`go/tools/builders/link.go`).

The file shallowly embeds the string processing and control flow of the
`link` function: the `-X`/`-Xstamp` substitution parser (`parseXdef`), the
stamp-file loader that builds the merged stamp table, the assembly of the
argument list for the external `go tool link` invocation, and the
post-invocation control flow (import-configuration cleanup, archive
metadata stripping).
-/

namespace RulesGoLink

/-- Index of the first occurrence of `c` in the character list, as in Go's
`strings.IndexByte` (restricted to single-byte/ASCII delimiters, which is
how the source uses it). `none` plays the role of Go's `-1`. -/
def firstIdx (c : Char) : List Char → Option Nat
  | [] => none
  | x :: xs => if x = c then some 0 else (firstIdx c xs).map (· + 1)

/-- Index of the last occurrence of `c` in the character list, as in Go's
`strings.LastIndexByte`. `none` plays the role of Go's `-1`. -/
def lastIdx (c : Char) : List Char → Option Nat
  | [] => none
  | x :: xs =>
    match lastIdx c xs with
    | some i => some (i + 1)
    | none => if x = c then some 0 else none

/-- The split of the `xdef` string performed by lines 106–113 of
`parseXdef` in `link.go`: find the first `=` (`strings.IndexByte`), find
the last `.` before it (`strings.LastIndexByte(xdef[:eq], '.')`), and cut
the string into `(pkg, name, value) = (xdef[:dot], xdef[dot+1:eq],
xdef[eq+1:])`; either delimiter missing is an error naming the input. -/
def rawXdef (xdef : String) : Except String (String × String × String) :=
  let cs := xdef.toList
  match firstIdx '=' cs with
  | none => .error ("-X or -Xstamp flag does not contain \x27=\x27: " ++ xdef)
  | some eq =>
    match lastIdx '.' (cs.take eq) with
    | none => .error ("-X or -Xstamp flag does not contain \x27.\x27: " ++ xdef)
    | some dot =>
      .ok (String.mk (cs.take dot), String.mk ((cs.take eq).drop (dot + 1)),
           String.mk (cs.drop (eq + 1)))

/-- `parseXdef` from `link.go` (lines 105–119), parameterised by the value
of the `-p` flag (`*packagePath`): the raw split followed by the rewrite
`if pkg == *packagePath { pkg = "main" }`. -/
def parseXdef (packagePath : String) (xdef : String) :
    Except String (String × String × String) :=
  match rawXdef xdef with
  | .error e => .error e
  | .ok (pkg, name, value) =>
    .ok (if pkg = packagePath then "main" else pkg, name, value)

/-- Modelled from the spec, for comparison with `parseXdef`: "locate the
last `=` to split into left-hand side and value/key; within the left-hand
side, locate the last `.` to split into package path and symbol name",
with the same entry-package rewrite. This follows the spec's words, not
the source, which uses the first `=`. -/
def parseXdefSpecLast (packagePath : String) (xdef : String) :
    Except String (String × String × String) :=
  let cs := xdef.toList
  match lastIdx '=' cs with
  | none => .error ("-X or -Xstamp flag does not contain \x27=\x27: " ++ xdef)
  | some eq =>
    match lastIdx '.' (cs.take eq) with
    | none => .error ("-X or -Xstamp flag does not contain \x27.\x27: " ++ xdef)
    | some dot =>
      let pkg := String.mk (cs.take dot)
      .ok (if pkg = packagePath then "main" else pkg,
           String.mk ((cs.take eq).drop (dot + 1)), String.mk (cs.drop (eq + 1)))

/-! ## Stamp table loading -/

/-- The stamp table, Go's `map[string]string`, as a partial map. -/
def Table := String → Option String

/-- The empty table `map[string]string{}`. -/
def emptyTable : Table := fun _ => none

/-- A single Go map assignment `stampMap[k] = v`. -/
def tblInsert (t : Table) (k v : String) : Table :=
  fun x => if x = k then some v else t x

/-- Go's `strings.SplitN(line, " ", 2)`: split at the first space, at most
two pieces. On an input with no space (including the empty string) the
result is the one-element list holding the input itself. -/
def splitN2 (cs : List Char) : List (List Char) :=
  match firstIdx ' ' cs with
  | none => [cs]
  | some i => [cs.take i, cs.drop (i + 1)]

/-- Processing of one scanned stamp line (the `switch len(line)` in
`link.go` lines 80–91): a bare key maps to the empty string, a `key value`
line maps the key to the remainder; the `case 0` branch of the source is
unreachable since `SplitN` never returns an empty slice. -/
def stampLine (t : Table) (line : String) : Table :=
  match splitN2 line.toList with
  | [k] => tblInsert t (String.mk k) ""
  | [k, v] => tblInsert t (String.mk k) (String.mk v)
  | _ => t

/-- Go's `strings.Split` on newline characters. -/
def splitNl : List Char → List (List Char)
  | [] => [[]]
  | c :: cs =>
    if c = '\n' then [] :: splitNl cs
    else
      match splitNl cs with
      | [] => [[c]]
      | l :: ls => (c :: l) :: ls

/-- `bufio.ScanLines` carriage-return stripping (`dropCR`). -/
def dropCR (cs : List Char) : List Char :=
  if cs.getLast? = some '\r' then cs.dropLast else cs

/-- The sequence of lines produced by `bufio.NewScanner(...).Scan()` with
the default `ScanLines` split function: newline-separated tokens, each
with a trailing carriage return removed; the empty token after a final
newline (in particular, for empty contents) is not produced. -/
def scanLines (contents : String) : List String :=
  let parts := splitNl contents.toList
  let parts := if parts.getLast? = some [] then parts.dropLast else parts
  parts.map (fun l => String.mk (dropCR l))

/-- Loading the contents of one stamp file into the table (the inner
scanner loop of `link.go` lines 78–92). -/
def loadStampContent (t : Table) (contents : String) : Table :=
  (scanLines contents).foldl stampLine t

/-- The merged stamp table built from the contents of the declared stamp
files, read in declaration order (the outer loop of `link.go` lines
73–92, with file reads already performed). -/
def mergeStamps (stampContents : List String) : Table :=
  stampContents.foldl loadStampContent emptyTable

/-! ## The `link` run -/

/-- The inputs and environment of one `link` invocation, after flag
parsing and stamp-file reads: the parsed flag values, the contents of the
stamp files, the outcome of `buildImportcfgFileForLink`, and the outcomes
of the two external effects (`goenv.runCommand` and `stripArMetadata`),
which the embedding takes as oracles. `absMap` stands for the path
normalisation function `abs` (defined outside this file's source). -/
structure LinkConfig where
  goos : String
  absMap : String → String
  toolCmd : List String
  mainFile : String
  packagePath : String
  outFile : String
  buildmode : String
  xdefs : List String
  xstamps : List String
  stampContents : List String
  toolArgs : List String
  importcfgResult : Except String String
  runResult : Except String Unit
  stripResult : Except String Unit

/-- `*main = abs(*main)` (`link.go` line 69): applied on every platform. -/
def mainUsed (c : LinkConfig) : String := c.absMap c.mainFile

/-- `if runtime.GOOS != "darwin" { *outFile = abs(*outFile) }`
(`link.go` lines 66–68). -/
def outUsed (c : LinkConfig) : String :=
  if c.goos ≠ "darwin" then c.absMap c.outFile else c.outFile

/-- The `-X` argument string built by `fmt.Sprintf("%s.%s=%s", ...)`. -/
def xArg (pkg name value : String) : String :=
  pkg ++ "." ++ name ++ "=" ++ value

/-- The arguments contributed by the `-Xstamp` loop (`link.go` lines
120–128): each request is parsed; a parse failure aborts; otherwise the
parsed value is looked up as a key in the stamp table, a missing key
contributes nothing, and a present key contributes `-X pkg.name=value`. -/
def xstampArgs (packagePath : String) (tbl : Table) :
    List String → Except String (List String)
  | [] => .ok []
  | x :: xs =>
    match parseXdef packagePath x with
    | .error e => .error e
    | .ok (pkg, name, key) =>
      match xstampArgs packagePath tbl xs with
      | .error e => .error e
      | .ok rest =>
        match tbl key with
        | some value => .ok ("-X" :: xArg pkg name value :: rest)
        | none => .ok rest

/-- The arguments contributed by the `-X` loop (`link.go` lines 129–136):
each request is parsed (a failure aborts) and contributes
`-X pkg.name=value` unconditionally. -/
def xdefArgs (packagePath : String) :
    List String → Except String (List String)
  | [] => .ok []
  | x :: xs =>
    match parseXdef packagePath x with
    | .error e => .error e
    | .ok (pkg, name, value) =>
      match xdefArgs packagePath xs with
      | .error e => .error e
      | .ok rest => .ok ("-X" :: xArg pkg name value :: rest)

/-- Assembly of `goargs` (`link.go` lines 102–145): the tool invocation
`goenv.goTool("link")`, then `-importcfg`, the resolved `-Xstamp`
substitutions, the `-X` substitutions, `-buildmode` when non-empty, `-o`,
the pass-through tool arguments and finally the main archive path. -/
def linkArgs (c : LinkConfig) (importcfgName : String) :
    Except String (List String) :=
  let goargs := c.toolCmd
  let goargs := goargs ++ ["-importcfg", importcfgName]
  match xstampArgs c.packagePath (mergeStamps c.stampContents) c.xstamps with
  | .error e => .error e
  | .ok sArgs =>
    match xdefArgs c.packagePath c.xdefs with
    | .error e => .error e
    | .ok dArgs =>
      let goargs := goargs ++ sArgs
      let goargs := goargs ++ dArgs
      let goargs := if c.buildmode ≠ "" then goargs ++ ["-buildmode", c.buildmode]
        else goargs
      let goargs := goargs ++ ["-o", outUsed c]
      let goargs := goargs ++ c.toolArgs
      .ok (goargs ++ [mainUsed c])

/-- Observable file-system / subprocess events of a `link` run. -/
inductive Event where
  | runTool (args : List String)
  | stripArchive (out : String)
  | removeImportcfg (name : String)
  deriving DecidableEq

/-- The part of `link` after `buildImportcfgFileForLink` succeeded
(`link.go` lines 100–155), with the trace of events it performs:
substitution parsing (either loop may abort), the external tool
invocation, and for build mode `c-archive` the `stripArMetadata` call,
whose failure is wrapped as `error stripping archive metadata: ...`. -/
def linkAfterCfg (c : LinkConfig) (cfgName : String) :
    Except String Unit × List Event :=
  match linkArgs c cfgName with
  | .error e => (.error e, [])
  | .ok goargs =>
    match c.runResult with
    | .error e => (.error e, [.runTool goargs])
    | .ok _ =>
      if c.buildmode = "c-archive" then
        match c.stripResult with
        | .error e =>
          (.error ("error stripping archive metadata: " ++ e),
           [.runTool goargs, .stripArchive (outUsed c)])
        | .ok _ => (.ok (), [.runTool goargs, .stripArchive (outUsed c)])
      else (.ok (), [.runTool goargs])

/-- The `link` run from the `buildImportcfgFileForLink` call on
(`link.go` lines 94–156): if descriptor creation fails the error is
returned at once; otherwise `defer os.Remove(importcfgName)` guarantees
that the removal event follows whatever the rest of the function does,
on every exit path. -/
def linkRun (c : LinkConfig) : Except String Unit × List Event :=
  match c.importcfgResult with
  | .error e => (.error e, [])
  | .ok cfgName =>
    let r := linkAfterCfg c cfgName
    (r.1, r.2 ++ [.removeImportcfg cfgName])

/-- A concrete `link` invocation used to exercise the theorems below on
closed inputs. -/
def sampleCfg : LinkConfig where
  goos := "linux"
  absMap := fun s => "/abs/" ++ s
  toolCmd := ["go", "tool", "link"]
  mainFile := "main.a"
  packagePath := "other"
  outFile := "out.bin"
  buildmode := "c-archive"
  xdefs := ["pkg/x.V=1"]
  xstamps := ["pkg/x.U=KEY"]
  stampContents := ["KEY val"]
  toolArgs := ["-s", "-w"]
  importcfgResult := .ok "importcfg.tmp"
  runResult := .ok ()
  stripResult := .ok ()

/-! ## Index lemmas -/

theorem firstIdx_of_not_mem (c : Char) (xs : List Char) (h : c ∉ xs) :
    firstIdx c xs = none := by
  induction xs with
  | nil => rfl
  | cons x xs ih =>
    simp only [List.mem_cons, not_or] at h
    simp [firstIdx, Ne.symm h.1, ih h.2]

theorem firstIdx_decomp (c : Char) (A B : List Char) (h : c ∉ A) :
    firstIdx c (A ++ c :: B) = some A.length := by
  induction A with
  | nil => simp [firstIdx]
  | cons x xs ih =>
    simp only [List.mem_cons, not_or] at h
    simp [firstIdx, Ne.symm h.1, ih h.2]

theorem lastIdx_of_not_mem (c : Char) (xs : List Char) (h : c ∉ xs) :
    lastIdx c xs = none := by
  induction xs with
  | nil => rfl
  | cons x xs ih =>
    simp only [List.mem_cons, not_or] at h
    rw [lastIdx, ih h.2]
    simp [Ne.symm h.1]

theorem lastIdx_decomp (c : Char) (A B : List Char) (h : c ∉ B) :
    lastIdx c (A ++ c :: B) = some A.length := by
  induction A with
  | nil => rw [List.nil_append, lastIdx, lastIdx_of_not_mem c B h]; simp
  | cons x xs ih => rw [List.cons_append, lastIdx, ih]; simp

/-! ## `parseXdef` lemmas -/

theorem rawXdef_eq_of_idx (s : String) (eq dot : Nat)
    (h1 : firstIdx '=' s.toList = some eq)
    (h2 : lastIdx '.' (s.toList.take eq) = some dot) :
    rawXdef s = .ok (String.mk (s.toList.take dot),
      String.mk ((s.toList.take eq).drop (dot + 1)),
      String.mk (s.toList.drop (eq + 1))) := by
  unfold rawXdef
  simp only [h1, h2]

theorem rawXdef_no_eq (s : String) (h : '=' ∉ s.toList) :
    rawXdef s = .error ("-X or -Xstamp flag does not contain \x27=\x27: " ++ s) := by
  unfold rawXdef
  simp only [firstIdx_of_not_mem _ _ h]

theorem rawXdef_no_dot (s : String) (eq : Nat)
    (h1 : firstIdx '=' s.toList = some eq)
    (h2 : '.' ∉ s.toList.take eq) :
    rawXdef s = .error ("-X or -Xstamp flag does not contain \x27.\x27: " ++ s) := by
  unfold rawXdef
  simp only [h1, lastIdx_of_not_mem _ _ h2]

theorem rawXdef_split (A B C : List Char) (hA : '=' ∉ A) (hB : '=' ∉ B)
    (hBd : '.' ∉ B) :
    rawXdef (String.mk (A ++ '.' :: (B ++ '=' :: C))) =
      .ok (String.mk A, String.mk B, String.mk C) := by
  have hL : '=' ∉ A ++ '.' :: B := by
    intro hmem
    rcases List.mem_append.mp hmem with h | h
    · exact hA h
    · rcases List.mem_cons.mp h with h | h
      · exact absurd h (by decide)
      · exact hB h
  have hlist : A ++ '.' :: (B ++ '=' :: C) = (A ++ '.' :: B) ++ '=' :: C := by
    simp
  have htl : (String.mk (A ++ '.' :: (B ++ '=' :: C))).toList
      = (A ++ '.' :: B) ++ '=' :: C := hlist
  have h1 : firstIdx '=' ((A ++ '.' :: B) ++ '=' :: C) = some (A ++ '.' :: B).length :=
    firstIdx_decomp '=' (A ++ '.' :: B) C hL
  have htake : ((A ++ '.' :: B) ++ '=' :: C).take (A ++ '.' :: B).length
      = A ++ '.' :: B := List.take_left _ _
  have h2 : lastIdx '.' (A ++ '.' :: B) = some A.length := lastIdx_decomp '.' A B hBd
  have e := rawXdef_eq_of_idx (String.mk (A ++ '.' :: (B ++ '=' :: C)))
    (A ++ '.' :: B).length A.length (by rw [htl, h1]) (by rw [htl, htake, h2])
  rw [e, htl, htake]
  have d1 : ((A ++ '.' :: B) ++ '=' :: C).take A.length = A := by
    rw [List.append_assoc]
    exact List.take_left' rfl
  have d2 : (A ++ '.' :: B).drop (A.length + 1) = B := by
    have : A ++ '.' :: B = (A ++ ['.']) ++ B := by simp
    rw [this]
    exact List.drop_left' (by simp)
  have d3 : ((A ++ '.' :: B) ++ '=' :: C).drop ((A ++ '.' :: B).length + 1) = C := by
    have : (A ++ '.' :: B) ++ '=' :: C = ((A ++ '.' :: B) ++ ['=']) ++ C := by simp
    rw [this]
    exact List.drop_left'
      (by simp only [List.length_append, List.length_cons, List.length_nil])
  rw [d1, d2, d3]

theorem parseXdef_split (pp a b c : String) (h1 : '=' ∉ a.toList)
    (h2 : '=' ∉ b.toList) (h3 : '.' ∉ b.toList) :
    parseXdef pp (a ++ "." ++ b ++ "=" ++ c)
      = .ok (if a = pp then "main" else a, b, c) := by
  have key : a ++ "." ++ b ++ "=" ++ c
      = String.mk (a.toList ++ '.' :: (b.toList ++ '=' :: c.toList)) := by
    apply String.toList_inj.mp
    show ((((a.toList ++ ['.']) ++ b.toList) ++ ['=']) ++ c.toList) = _
    simp
  rw [key]
  unfold parseXdef
  rw [rawXdef_split a.toList b.toList c.toList h1 h2 h3]
  rfl

/-! ## Stamp table lemmas -/

theorem tblInsert_or (t : Table) (k v x : String) :
    tblInsert t k v x = Option.or (tblInsert emptyTable k v x) (t x) := by
  unfold tblInsert emptyTable
  split <;> rfl

theorem stampLine_or (t : Table) (line x : String) :
    stampLine t line x = Option.or (stampLine emptyTable line x) (t x) := by
  unfold stampLine
  rcases hsp : splitN2 line.toList with _ | ⟨k, _ | ⟨v, _ | ⟨w, rest⟩⟩⟩
  · rfl
  · exact tblInsert_or ..
  · exact tblInsert_or ..
  · rfl

theorem foldl_stampLine_or (ls : List String) (t : Table) (x : String) :
    (ls.foldl stampLine t) x = Option.or ((ls.foldl stampLine emptyTable) x) (t x) := by
  induction ls generalizing t with
  | nil => rfl
  | cons l ls ih =>
    simp only [List.foldl_cons]
    rw [ih (stampLine t l), ih (stampLine emptyTable l), stampLine_or t l x]
    exact (Option.or_assoc).symm

theorem loadStampContent_or (t : Table) (contents x : String) :
    loadStampContent t contents x
      = Option.or (loadStampContent emptyTable contents x) (t x) :=
  foldl_stampLine_or (scanLines contents) t x

theorem stampLine_no_space (t : Table) (line : String) (h : ' ' ∉ line.toList) :
    stampLine t line = tblInsert t line "" := by
  unfold stampLine splitN2
  rw [firstIdx_of_not_mem _ _ h]
  rfl

theorem stampLine_space (t : Table) (a b : String) (h : ' ' ∉ a.toList) :
    stampLine t (a ++ " " ++ b) = tblInsert t a b := by
  have key : a ++ " " ++ b = String.mk (a.toList ++ ' ' :: b.toList) := by
    apply String.toList_inj.mp
    show ((a.toList ++ [' ']) ++ b.toList) = _
    simp
  rw [key]
  unfold stampLine splitN2
  have h1 : firstIdx ' ' (String.mk (a.toList ++ ' ' :: b.toList)).toList
      = some a.toList.length := firstIdx_decomp ' ' a.toList b.toList h
  rw [h1]
  have d1 : (a.toList ++ ' ' :: b.toList).take a.toList.length = a.toList :=
    List.take_left _ _
  have d2 : (a.toList ++ ' ' :: b.toList).drop (a.toList.length + 1) = b.toList := by
    have : a.toList ++ ' ' :: b.toList = (a.toList ++ [' ']) ++ b.toList := by simp
    rw [this]
    exact List.drop_left'
      (by simp only [List.length_append, List.length_cons, List.length_nil])
  show (match [(a.toList ++ ' ' :: b.toList).take a.toList.length,
      (a.toList ++ ' ' :: b.toList).drop (a.toList.length + 1)] with
    | [k] => tblInsert t (String.mk k) ""
    | [k, v] => tblInsert t (String.mk k) (String.mk v)
    | _ => t) = tblInsert t a b
  rw [d1, d2]
  rfl

/-! ## Claims about stamp loading (C4, C5) -/

/-- C4: the merged stamp table over files `F1 :: rest` equals loading `F1`
into the empty table and then folding the remaining file contents over the
result; moreover appending one more file `f` overrides the previously
merged table pointwise — on every key, the value defined by the
later-declared file wins, and keys it does not define keep the earlier
value. -/
theorem c4_merge_last_wins :
    (∀ (f1 : String) (rest : List String) (k : String),
      mergeStamps (f1 :: rest) k
        = (rest.foldl loadStampContent (loadStampContent emptyTable f1)) k) ∧
    (∀ (files : List String) (f : String) (k : String),
      mergeStamps (files ++ [f]) k
        = Option.or (loadStampContent emptyTable f k) (mergeStamps files k)) := by
  constructor
  · intro f1 rest k
    rfl
  · intro files f k
    unfold mergeStamps
    rw [List.foldl_append]
    exact loadStampContent_or (files.foldl loadStampContent emptyTable) f k

/-- C5 counterexample: an empty line in a stamp file does add an entry to
the table, mapping the empty key to the empty string, whereas the same
contents without the empty line leave the empty key unmapped; the scanned
lines of `"a b\n\nc d"` do include the empty line. -/
theorem c5_counterexample :
    loadStampContent emptyTable "a b\n\nc d" "" = some "" ∧
    loadStampContent emptyTable "a b\nc d" "" = none ∧
    scanLines "a b\n\nc d" = ["a b", "", "c d"] :=
  ⟨rfl, rfl, rfl⟩

/-- C5 (amended): every scanned line — including empty lines — contributes
an entry: a line `key value` is split on its first space and maps the key
to the remainder, a line with no space maps the whole line to the empty
string, and in particular the empty line maps the empty key to the empty
string. -/
theorem c5_stamp_line_parsing :
    (∀ (t : Table) (a b k : String), ' ' ∉ a.toList →
      stampLine t (a ++ " " ++ b) k = if k = a then some b else t k) ∧
    (∀ (t : Table) (line k : String), ' ' ∉ line.toList →
      stampLine t line k = if k = line then some "" else t k) ∧
    (∀ (t : Table) (k : String),
      stampLine t "" k = if k = "" then some "" else t k) := by
  refine ⟨?_, ?_, ?_⟩
  · intro t a b k h
    rw [stampLine_space t a b h]
    rfl
  · intro t line k h
    rw [stampLine_no_space t line h]
    rfl
  · intro t k
    rfl

/-- C5 witness: applying the amended parsing law at concrete inputs. -/
theorem c5_witness :
    stampLine emptyTable "BUILD_USER alice" "BUILD_USER" = some "alice" ∧
    stampLine emptyTable "BARE" "BARE" = some "" := by
  constructor
  · have h := c5_stamp_line_parsing.1 emptyTable "BUILD_USER" "alice" "BUILD_USER"
      (by decide)
    exact h
  · have h := c5_stamp_line_parsing.2.1 emptyTable "BARE" "BARE" (by decide)
    exact h

/-! ## Claims about `parseXdef` (C1, C9, C10) -/

/-- C1 counterexample: on `"a.b=c=d"` the code splits at the first `=`
(value `"c=d"`), not at the last `=` as the claim states (which would give
symbol `"b=c"` and value `"d"`, as the spec-modelled `parseXdefSpecLast`
does); the two parses disagree. -/
theorem c1_counterexample :
    parseXdef "zzz" "a.b=c=d" = .ok ("a", "b", "c=d") ∧
    parseXdefSpecLast "zzz" "a.b=c=d" = .ok ("a", "b=c", "d") ∧
    parseXdef "zzz" "a.b=c=d" ≠ parseXdefSpecLast "zzz" "a.b=c=d" := by
  refine ⟨rfl, rfl, ?_⟩
  intro h
  have h1 : (("a", "b", "c=d") : String × String × String) = ("a", "b=c", "d") := by
    injection h
  exact absurd h1 (by decide)

/-- C1 (amended): `parseXdef` splits the request at the FIRST `=` into a
left-hand side and a value, splits the left-hand side at its last `.` into
package path and symbol name (so `"foo/bar.Sym=val"` yields package
`"foo/bar"`, symbol `"Sym"`, value `"val"`), and fails with a parse error
naming the offending string when the input has no `=`, or no `.` before
the first `=`. -/
theorem c1_parseXdef_first_eq :
    (∀ pp a b c : String, '=' ∉ a.toList → '=' ∉ b.toList → '.' ∉ b.toList →
      parseXdef pp (a ++ "." ++ b ++ "=" ++ c)
        = .ok (if a = pp then "main" else a, b, c)) ∧
    (∀ pp s : String, '=' ∉ s.toList →
      parseXdef pp s
        = .error ("-X or -Xstamp flag does not contain \x27=\x27: " ++ s)) ∧
    (∀ pp a c : String, '=' ∉ a.toList → '.' ∉ a.toList →
      parseXdef pp (a ++ "=" ++ c)
        = .error ("-X or -Xstamp flag does not contain \x27.\x27: "
            ++ (a ++ "=" ++ c))) := by
  refine ⟨parseXdef_split, ?_, ?_⟩
  · intro pp s h
    unfold parseXdef
    rw [rawXdef_no_eq s h]
  · intro pp a c h1 h2
    have key : a ++ "=" ++ c = String.mk (a.toList ++ '=' :: c.toList) := by
      apply String.toList_inj.mp
      show ((a.toList ++ ['=']) ++ c.toList) = _
      simp
    have hfi : firstIdx '=' (String.mk (a.toList ++ '=' :: c.toList)).toList
        = some a.toList.length := firstIdx_decomp '=' a.toList c.toList h1
    have htk : (String.mk (a.toList ++ '=' :: c.toList)).toList.take a.toList.length
        = a.toList := List.take_left _ _
    have hdot : '.' ∉ (String.mk (a.toList ++ '=' :: c.toList)).toList.take
        a.toList.length := by rw [htk]; exact h2
    unfold parseXdef
    rw [key, rawXdef_no_dot _ a.toList.length hfi hdot]

/-- C1 witness: the amended split law applied at concrete inputs,
including the spec's own example. -/
theorem c1_witness :
    parseXdef "zzz" "foo/bar.Sym=val" = .ok ("foo/bar", "Sym", "val") ∧
    parseXdef "zzz" "noequals"
      = .error "-X or -Xstamp flag does not contain \x27=\x27: noequals" ∧
    parseXdef "zzz" "nodot=v"
      = .error "-X or -Xstamp flag does not contain \x27.\x27: nodot=v" := by
  refine ⟨?_, ?_, ?_⟩
  · have h := c1_parseXdef_first_eq.1 "zzz" "foo/bar" "Sym" "val"
      (by decide) (by decide) (by decide)
    exact h
  · have h := c1_parseXdef_first_eq.2.1 "zzz" "noequals" (by decide)
    exact h
  · have h := c1_parseXdef_first_eq.2.2 "zzz" "nodot" "v" (by decide) (by decide)
    exact h

/-- C9: after a successful raw split, the package path is forwarded to the
external tool unchanged unless it equals the build's declared own package
path (`-p`), in which case it is replaced by the reserved entry-package
identifier `"main"`. -/
theorem c9_entry_package_rewrite :
    ∀ (pp s pkg name value : String), rawXdef s = .ok (pkg, name, value) →
      (pkg = pp → parseXdef pp s = .ok ("main", name, value)) ∧
      (pkg ≠ pp → parseXdef pp s = .ok (pkg, name, value)) := by
  intro pp s pkg name value h
  constructor <;> intro hc <;> unfold parseXdef <;> rw [h] <;> simp [hc]

/-- C9 witness: with declared own-package `"bar"` the request
`"bar.Sym=val"` is rewritten to package `"main"`, while with declared
own-package `"other"` it is forwarded unchanged. -/
theorem c9_witness :
    parseXdef "bar" "bar.Sym=val" = .ok ("main", "Sym", "val") ∧
    parseXdef "other" "bar.Sym=val" = .ok ("bar", "Sym", "val") := by
  constructor
  · exact (c9_entry_package_rewrite "bar" "bar.Sym=val" "bar" "Sym" "val" rfl).1 rfl
  · exact (c9_entry_package_rewrite "other" "bar.Sym=val" "bar" "Sym" "val" rfl).2
      (by decide)

/-- C10: with the `-p` flag left at its empty default, a request whose
package part is empty (a leading `.`) parses to the empty package path,
which equals the empty declared package path and is therefore rewritten to
`"main"`. -/
theorem c10_empty_package_default :
    ∀ (name value : String), '=' ∉ name.toList → '.' ∉ name.toList →
      parseXdef "" ("." ++ name ++ "=" ++ value) = .ok ("main", name, value) := by
  intro name value h1 h2
  have h := parseXdef_split "" "" name value (by decide) h1 h2
  simpa using h

/-- C10 witness: `".Sym=val"` with empty `-p` is rewritten to `"main"`. -/
theorem c10_witness : parseXdef "" ".Sym=val" = .ok ("main", "Sym", "val") := by
  have h := c10_empty_package_default "Sym" "val" (by decide) (by decide)
  exact h

/-! ## Claims about argument assembly and the run (C2, C3, C6, C7, C8) -/

/-- C2: an `-Xstamp` request that parses successfully and whose key is
absent from the stamp table contributes nothing — the argument list is
exactly the one for the remaining requests, with no error; if the key is
present, exactly the pair `-X pkg.sym=value` is prepended, using the
table's value. -/
theorem c2_xstamp_resolution :
    ∀ (pp : String) (tbl : Table) (x : String) (xs : List String)
      (pkg name key : String), parseXdef pp x = .ok (pkg, name, key) →
      (tbl key = none → xstampArgs pp tbl (x :: xs) = xstampArgs pp tbl xs) ∧
      (∀ value, tbl key = some value →
        xstampArgs pp tbl (x :: xs)
          = match xstampArgs pp tbl xs with
            | .error e => .error e
            | .ok rest => .ok ("-X" :: xArg pkg name value :: rest)) := by
  intro pp tbl x xs pkg name key h
  constructor
  · intro hk
    cases hr : xstampArgs pp tbl xs with
    | error e => simp [xstampArgs, h, hk, hr]
    | ok rest => simp [xstampArgs, h, hk, hr]
  · intro value hk
    cases hr : xstampArgs pp tbl xs with
    | error e => simp [xstampArgs, h, hk, hr]
    | ok rest => simp [xstampArgs, h, hk, hr]

/-- C2 witness: the spec's end-to-end scenario — a stamp file defining
`BUILD_USER alice` turns `-Xstamp pkg/x.Version=BUILD_USER` into
`-X pkg/x.Version=alice`; without the key the request is dropped. -/
theorem c2_witness :
    xstampArgs "p" (mergeStamps ["BUILD_USER alice"]) ["pkg/x.Version=BUILD_USER"]
      = .ok ["-X", "pkg/x.Version=alice"] ∧
    xstampArgs "p" (mergeStamps ["OTHER bob"]) ["pkg/x.Version=BUILD_USER"]
      = .ok [] := by
  constructor
  · have h := (c2_xstamp_resolution "p" (mergeStamps ["BUILD_USER alice"])
      "pkg/x.Version=BUILD_USER" [] "pkg/x" "Version" "BUILD_USER" rfl).2 "alice" rfl
    exact h
  · have h := (c2_xstamp_resolution "p" (mergeStamps ["OTHER bob"])
      "pkg/x.Version=BUILD_USER" [] "pkg/x" "Version" "BUILD_USER" rfl).1 rfl
    exact h

/-- C3: when both substitution loops succeed, the argument list handed to
the external tool is exactly: tool invocation, `-importcfg` with the
descriptor path, resolved `-Xstamp` substitutions, `-X` substitutions,
`-buildmode` iff a non-empty mode was declared, `-o` with the output path,
the pass-through trailing flags, and the normalized main path. -/
theorem c3_goargs_order :
    ∀ (c : LinkConfig) (cfgName : String) (sArgs dArgs : List String),
      xstampArgs c.packagePath (mergeStamps c.stampContents) c.xstamps = .ok sArgs →
      xdefArgs c.packagePath c.xdefs = .ok dArgs →
      linkArgs c cfgName
        = .ok (c.toolCmd ++ ["-importcfg", cfgName] ++ sArgs ++ dArgs
            ++ (if c.buildmode = "" then [] else ["-buildmode", c.buildmode])
            ++ ["-o", outUsed c] ++ c.toolArgs ++ [mainUsed c]) := by
  intro c cfgName sArgs dArgs h1 h2
  unfold linkArgs
  rw [h1, h2]
  by_cases hb : c.buildmode = "" <;> simp [hb, List.append_assoc]

/-- C3 witness: the fully assembled argument list of the sample run. -/
theorem c3_witness :
    linkArgs sampleCfg "icfg"
      = .ok (sampleCfg.toolCmd ++ ["-importcfg", "icfg"]
          ++ ["-X", "pkg/x.U=val"] ++ ["-X", "pkg/x.V=1"]
          ++ (if sampleCfg.buildmode = "" then []
              else ["-buildmode", sampleCfg.buildmode])
          ++ ["-o", outUsed sampleCfg] ++ sampleCfg.toolArgs
          ++ [mainUsed sampleCfg]) :=
  c3_goargs_order sampleCfg "icfg" ["-X", "pkg/x.U=val"] ["-X", "pkg/x.V=1"]
    rfl rfl

/-- C6: whenever the import-configuration descriptor is successfully
created, the run's event trace ends with its removal — on the success
path, after a failed tool invocation, after a substitution parse error and
after a failed post-processing step alike; when creation fails, no removal
(indeed no event at all) happens. -/
theorem c6_importcfg_always_removed :
    ∀ (c : LinkConfig) (cfgName : String),
      c.importcfgResult = .ok cfgName →
      (linkRun c).2.getLast? = some (.removeImportcfg cfgName) := by
  intro c cfgName h
  unfold linkRun
  rw [h]
  exact List.getLast?_concat _

/-- C6 witness: the removal event closes the trace even when the external
tool invocation fails. -/
theorem c6_witness :
    (linkRun { sampleCfg with runResult := Except.error "boom" }).2.getLast?
      = some (.removeImportcfg "importcfg.tmp") :=
  c6_importcfg_always_removed { sampleCfg with runResult := Except.error "boom" }
    "importcfg.tmp" rfl

/-- C7: with build mode `c-archive` and a successful tool invocation the
strip step runs exactly once, after the tool invocation; with any other
build mode, or a failed invocation, it never runs; and a strip failure is
reported as the wrapped fatal error `error stripping archive metadata:
...`, while a tool failure is propagated unwrapped. -/
theorem c7_strip_iff_c_archive :
    ∀ (c : LinkConfig) (cfgName : String) (goargs : List String),
      c.importcfgResult = .ok cfgName →
      linkArgs c cfgName = .ok goargs →
      ((c.runResult = .ok () → c.buildmode = "c-archive" →
        (linkRun c).2 = [.runTool goargs, .stripArchive (outUsed c),
          .removeImportcfg cfgName]
        ∧ (∀ e, c.stripResult = .error e →
            (linkRun c).1 = .error ("error stripping archive metadata: " ++ e))
        ∧ (c.stripResult = .ok () → (linkRun c).1 = .ok ()))
      ∧ (c.runResult = .ok () → c.buildmode ≠ "c-archive" →
          (linkRun c).2 = [.runTool goargs, .removeImportcfg cfgName]
          ∧ (linkRun c).1 = .ok ())
      ∧ (∀ e, c.runResult = .error e →
          (linkRun c).2 = [.runTool goargs, .removeImportcfg cfgName]
          ∧ (linkRun c).1 = .error e)) := by
  intro c cfgName goargs hcfg hargs
  refine ⟨?_, ?_, ?_⟩
  · intro hrun hmode
    refine ⟨?_, ?_, ?_⟩
    · cases hstrip : c.stripResult with
      | error e => simp [linkRun, linkAfterCfg, hcfg, hargs, hrun, hmode, hstrip]
      | ok u => simp [linkRun, linkAfterCfg, hcfg, hargs, hrun, hmode, hstrip]
    · intro e hstrip
      simp [linkRun, linkAfterCfg, hcfg, hargs, hrun, hmode, hstrip]
    · intro hstrip
      simp [linkRun, linkAfterCfg, hcfg, hargs, hrun, hmode, hstrip]
  · intro hrun hmode
    constructor <;> simp [linkRun, linkAfterCfg, hcfg, hargs, hrun, hmode]
  · intro e hrun
    constructor <;> simp [linkRun, linkAfterCfg, hcfg, hargs, hrun]

/-- C7 witness: the sample `c-archive` run strips exactly once after the
tool invocation and succeeds; the same run with build mode `"pie"` never
strips. -/
theorem c7_witness :
    (linkRun sampleCfg).2
      = [.runTool ["go", "tool", "link", "-importcfg", "importcfg.tmp",
          "-X", "pkg/x.U=val", "-X", "pkg/x.V=1", "-buildmode", "c-archive",
          "-o", "/abs/out.bin", "-s", "-w", "/abs/main.a"],
         .stripArchive (outUsed sampleCfg), .removeImportcfg "importcfg.tmp"] ∧
    (linkRun { sampleCfg with buildmode := "pie" }).2
      = [.runTool ["go", "tool", "link", "-importcfg", "importcfg.tmp",
          "-X", "pkg/x.U=val", "-X", "pkg/x.V=1", "-buildmode", "pie",
          "-o", "/abs/out.bin", "-s", "-w", "/abs/main.a"],
         .removeImportcfg "importcfg.tmp"] := by
  constructor
  · exact ((c7_strip_iff_c_archive sampleCfg "importcfg.tmp"
      ["go", "tool", "link", "-importcfg", "importcfg.tmp",
       "-X", "pkg/x.U=val", "-X", "pkg/x.V=1", "-buildmode", "c-archive",
       "-o", "/abs/out.bin", "-s", "-w", "/abs/main.a"] rfl rfl).1 rfl rfl).1
  · exact ((c7_strip_iff_c_archive { sampleCfg with buildmode := "pie" }
      "importcfg.tmp"
      ["go", "tool", "link", "-importcfg", "importcfg.tmp",
       "-X", "pkg/x.U=val", "-X", "pkg/x.V=1", "-buildmode", "pie",
       "-o", "/abs/out.bin", "-s", "-w", "/abs/main.a"] rfl rfl).2.1 rfl
      (by decide)).1

/-- C8: the main-unit path is normalized through `abs` on every platform —
it is the last argument handed to the external tool — while the output
path is normalized on every platform except darwin, where it is left as
given. -/
theorem c8_path_normalization :
    ∀ (c : LinkConfig),
      mainUsed c = c.absMap c.mainFile
      ∧ (c.goos ≠ "darwin" → outUsed c = c.absMap c.outFile)
      ∧ (c.goos = "darwin" → outUsed c = c.outFile)
      ∧ (∀ cfgName goargs, linkArgs c cfgName = .ok goargs →
          goargs.getLast? = some (c.absMap c.mainFile)) := by
  intro c
  refine ⟨rfl, ?_, ?_, ?_⟩
  · intro h
    unfold outUsed
    rw [if_pos h]
  · intro h
    unfold outUsed
    simp [h]
  · intro cfgName goargs h
    unfold linkArgs at h
    cases hs : xstampArgs c.packagePath (mergeStamps c.stampContents) c.xstamps with
    | error e => rw [hs] at h; exact absurd h (by simp)
    | ok sArgs =>
      cases hd : xdefArgs c.packagePath c.xdefs with
      | error e => rw [hs, hd] at h; exact absurd h (by simp)
      | ok dArgs =>
        rw [hs, hd] at h
        have hg : goargs = _ ++ [mainUsed c] := (Except.ok.inj h).symm
        rw [hg]
        exact List.getLast?_concat _

/-- C8 witness: on the sample linux run both paths are normalized; on the
darwin variant the output path is left as given while the main path is
still normalized. -/
theorem c8_witness :
    outUsed sampleCfg = "/abs/out.bin" ∧
    outUsed { sampleCfg with goos := "darwin" } = "out.bin" ∧
    mainUsed sampleCfg = "/abs/main.a" := by
  refine ⟨?_, ?_, ?_⟩
  · have h := (c8_path_normalization sampleCfg).2.1 (by decide)
    exact h
  · have h := (c8_path_normalization { sampleCfg with goos := "darwin" }).2.2.1 rfl
    exact h
  · exact (c8_path_normalization sampleCfg).1

end RulesGoLink
